import Mathlib

/-!
Verification of the layered pixel-art editing core
(`src/components/pixel-art-editor.tsx`).

The grid of a layer is `string[][]` in the source ("" denotes an empty
cell, any other string a hex color).  We model a grid as a total function
from integer coordinates to colors; the editor only ever reads or writes
cells inside `[0, gridSize) × [0, gridSize)`, and every bounds check of
the source is reproduced verbatim.  `grid[y][x]` in the source is cell
`g x y` here.  JavaScript's `JSON.parse(JSON.stringify(v))` deep copy is
the identity on values, so it disappears in the pure translation; where
the source mutates a shared array in place (the flood-fill bucket path),
the translation threads the mutated value explicitly and keeps the stale
alias visible as a separate value.
-/

/-- A color: `""` is the empty cell, any other string a hex code
(source line 25: `type PixelGrid = string[][] // hex codes or empty string`). -/
abbrev Color := String

/-- A layer's pixel grid, as a total function on integer coordinates. -/
abbrev PixelGrid := Int → Int → Color

/-- Writing one cell of a grid (`grid[y][x] = c` in the source). -/
def setCell (g : PixelGrid) (x y : Int) (c : Color) : PixelGrid :=
  fun a b => if a = x ∧ b = y then c else g a b

/-- Coordinate `(x, y)` is inside an `n × n` grid. -/
def inBounds (n : Nat) (x y : Int) : Prop :=
  0 ≤ x ∧ x < (n : Int) ∧ 0 ≤ y ∧ y < (n : Int)

instance (n : Nat) (x y : Int) : Decidable (inBounds n x y) := by
  unfold inBounds; infer_instance

/-- The out-of-bounds test of the source
(`x < 0 || x >= gridSize || y < 0 || y >= gridSize`, line 161). -/
def outOfRange (n : Nat) (x y : Int) : Prop :=
  x < 0 ∨ (n : Int) ≤ x ∨ y < 0 ∨ (n : Int) ≤ y

instance (n : Nat) (x y : Int) : Decidable (outOfRange n x y) := by
  unfold outOfRange; infer_instance

/--
Fueled translation of `floodFill` (source lines 159–177).  The source
recursion mutates one shared grid in place; here the grid is threaded
through the four recursive calls in the source's order (`x+1`, `x-1`,
`y+1`, `y-1`).  The source has no fuel parameter: its recursion is
unbounded.  The lemmas below show the recursion depth is at most the
number of target-colored cells plus one, so any fuel beyond `n * n`
computes exactly the source's recursion (see `floodFill`).
-/
def floodFillF (n : Nat) : Nat → PixelGrid → Int → Int → Color → Color → PixelGrid
  | 0, g, _, _, _, _ => g
  | fuel + 1, g, x, y, targetColor, replacementColor =>
    if targetColor = replacementColor then g
    else if outOfRange n x y then g
    else if g x y ≠ targetColor then g
    else
      let g1 := setCell g x y replacementColor
      let g2 := floodFillF n fuel g1 (x + 1) y targetColor replacementColor
      let g3 := floodFillF n fuel g2 (x - 1) y targetColor replacementColor
      let g4 := floodFillF n fuel g3 x (y + 1) targetColor replacementColor
      floodFillF n fuel g4 x (y - 1) targetColor replacementColor

/-- `floodFill` of the source, on an `n × n` grid: fuel `n * n + 1`
exceeds the recursion depth on any such grid, so this is the unbounded
recursion of the source. -/
def floodFill (n : Nat) (g : PixelGrid) (x y : Int)
    (targetColor replacementColor : Color) : PixelGrid :=
  floodFillF n (n * n + 1) g x y targetColor replacementColor

/-- `g'` arose from `g` by recoloring some in-bounds `t`-cells to `r`. -/
def Evolves (n : Nat) (t r : Color) (g g' : PixelGrid) : Prop :=
  ∀ a b : Int, g' a b = g a b ∨ (g a b = t ∧ g' a b = r ∧ inBounds n a b)

theorem evolves_refl (n : Nat) (t r : Color) (g : PixelGrid) : Evolves n t r g g :=
  fun _ _ => Or.inl rfl

theorem evolves_trans {n : Nat} {t r : Color} {g g' g'' : PixelGrid}
    (htr : t ≠ r) (h1 : Evolves n t r g g') (h2 : Evolves n t r g' g'') :
    Evolves n t r g g'' := by
  intro a b
  rcases h2 a b with h | ⟨hv, hr, hb⟩
  · rcases h1 a b with h' | ⟨hv', hr', hb'⟩
    · exact Or.inl (h.trans h')
    · exact Or.inr ⟨hv', h.trans hr', hb'⟩
  · rcases h1 a b with h' | ⟨hv', hr', hb'⟩
    · exact Or.inr ⟨h' ▸ hv, hr, hb⟩
    · exact Or.inr ⟨hv', hr, hb'⟩

theorem evolves_setCell {n : Nat} {t r : Color} {g : PixelGrid} {x y : Int}
    (hb : inBounds n x y) (hv : g x y = t) :
    Evolves n t r g (setCell g x y r) := by
  intro a b
  by_cases h : a = x ∧ b = y
  · right
    refine ⟨?_, ?_, ?_⟩
    · rw [h.1, h.2]; exact hv
    · simp [setCell, h]
    · rw [h.1, h.2]; exact hb
  · left; simp [setCell, h]

theorem evolves_of_ne {n : Nat} {t r : Color} {g g' : PixelGrid} {a b : Int}
    (h : Evolves n t r g g') (hne : g a b ≠ t) : g' a b = g a b := by
  rcases h a b with h' | ⟨hv, _, _⟩
  · exact h'
  · exact absurd hv hne

theorem evolves_t_subset {n : Nat} {t r : Color} {g g' : PixelGrid} {a b : Int}
    (htr : t ≠ r) (h : Evolves n t r g g') (hv : g' a b = t) : g a b = t := by
  rcases h a b with h' | ⟨hv', hr', _⟩
  · exact h' ▸ hv
  · exact hv'

theorem evolves_keeps_ne_t {n : Nat} {t r : Color} {g g' : PixelGrid} {a b : Int}
    (htr : t ≠ r) (h : Evolves n t r g g') (hne : g a b ≠ t) : g' a b ≠ t :=
  fun hv => hne (evolves_t_subset htr h hv)

theorem evolves_changed {n : Nat} {t r : Color} {g g' : PixelGrid} {a b : Int}
    (h : Evolves n t r g g') (hc : g' a b ≠ g a b) :
    g a b = t ∧ g' a b = r ∧ inBounds n a b := by
  rcases h a b with h' | h'
  · exact absurd h' hc
  · exact h'

theorem evolves_keeps_r {n : Nat} {t r : Color} {g g' : PixelGrid} {a b : Int}
    (htr : t ≠ r) (h : Evolves n t r g g') (hv : g a b = r) : g' a b = r := by
  rcases h a b with h' | ⟨hv', hr', _⟩
  · exact h' ▸ hv
  · exact hr'

/-- Every call to the fueled flood fill only recolors in-bounds
target-colored cells to the replacement color. -/
theorem ff_evolves (n : Nat) (t r : Color) (htr : t ≠ r) :
    ∀ (f : Nat) (g : PixelGrid) (x y : Int),
      Evolves n t r g (floodFillF n f g x y t r) := by
  intro f
  induction f with
  | zero => intro g x y; exact evolves_refl n t r g
  | succ f ih =>
    intro g x y
    show Evolves n t r g (floodFillF n (f + 1) g x y t r)
    rw [floodFillF]
    rw [if_neg htr]
    by_cases hoob : outOfRange n x y
    · rw [if_pos hoob]; exact evolves_refl n t r g
    rw [if_neg hoob]
    by_cases hne : g x y ≠ t
    · rw [if_pos hne]; exact evolves_refl n t r g
    rw [if_neg hne]
    push_neg at hne
    have hb : inBounds n x y := by
      unfold outOfRange at hoob
      unfold inBounds
      omega
    exact evolves_trans htr (evolves_setCell hb hne)
      (evolves_trans htr (ih _ _ _)
        (evolves_trans htr (ih _ _ _)
          (evolves_trans htr (ih _ _ _) (ih _ _ _))))

/-- 4-connected adjacency of cells (the four recursive calls of the source). -/
def Adj (p q : Int × Int) : Prop :=
  (q.1 = p.1 + 1 ∧ q.2 = p.2) ∨ (q.1 = p.1 - 1 ∧ q.2 = p.2) ∨
    (q.1 = p.1 ∧ q.2 = p.2 + 1) ∨ (q.1 = p.1 ∧ q.2 = p.2 - 1)

instance (p q : Int × Int) : Decidable (Adj p q) := by
  unfold Adj; infer_instance

/-- One step inside the target-colored region of grid `g`. -/
def RegionStep (n : Nat) (g : PixelGrid) (t : Color) (p q : Int × Int) : Prop :=
  Adj p q ∧ inBounds n q.1 q.2 ∧ g q.1 q.2 = t

/-- `p` belongs to the maximal 4-connected region of cells of `g` colored
`t` that contains `root`. -/
def InRegion (n : Nat) (g : PixelGrid) (t : Color) (root p : Int × Int) : Prop :=
  inBounds n root.1 root.2 ∧ g root.1 root.2 = t ∧
    Relation.ReflTransGen (RegionStep n g t) root p

theorem inRegion_target {n : Nat} {g : PixelGrid} {t : Color} {root p : Int × Int}
    (h : InRegion n g t root p) : g p.1 p.2 = t := by
  obtain ⟨hb, ht, hchain⟩ := h
  induction hchain with
  | refl => exact ht
  | tail _ hstep _ => exact hstep.2.2

theorem inRegion_inBounds {n : Nat} {g : PixelGrid} {t : Color} {root p : Int × Int}
    (h : InRegion n g t root p) : inBounds n p.1 p.2 := by
  obtain ⟨hb, ht, hchain⟩ := h
  induction hchain with
  | refl => exact hb
  | tail _ hstep _ => exact hstep.2.1

/-- Regions only grow when the set of target-colored cells grows. -/
theorem inRegion_mono {n : Nat} {g g' : PixelGrid} {t : Color} {root p : Int × Int}
    (hsub : ∀ a b : Int, g' a b = t → g a b = t)
    (h : InRegion n g' t root p) : InRegion n g t root p := by
  obtain ⟨hb, ht, hchain⟩ := h
  refine ⟨hb, hsub _ _ ht, ?_⟩
  refine Relation.ReflTransGen.mono ?_ hchain
  intro a b hab
  exact ⟨hab.1, hab.2.1, hsub _ _ hab.2.2⟩

/-- Soundness: every cell the recursion recolors lies in the 4-connected
target-colored region of the starting cell. -/
theorem ff_sound (n : Nat) (t r : Color) (htr : t ≠ r) :
    ∀ (f : Nat) (g : PixelGrid) (x y a b : Int),
      floodFillF n f g x y t r a b ≠ g a b → InRegion n g t (x, y) (a, b) := by
  intro f
  induction f with
  | zero => intro g x y a b h; exact absurd rfl h
  | succ f ih =>
    intro g x y a b h
    rw [floodFillF, if_neg htr] at h
    by_cases hoob : outOfRange n x y
    · rw [if_pos hoob] at h; exact absurd rfl h
    rw [if_neg hoob] at h
    by_cases hne : g x y ≠ t
    · rw [if_pos hne] at h; exact absurd rfl h
    rw [if_neg hne] at h
    push_neg at hne
    have hb : inBounds n x y := by unfold outOfRange at hoob; unfold inBounds; omega
    set g1 := setCell g x y r with hg1
    set G2 := floodFillF n f g1 (x + 1) y t r with hG2
    set G3 := floodFillF n f G2 (x - 1) y t r with hG3
    set G4 := floodFillF n f G3 x (y + 1) t r with hG4
    set G5 := floodFillF n f G4 x (y - 1) t r with hG5
    -- how each intermediate grid relates to the original
    have ev01 : Evolves n t r g g1 := evolves_setCell hb hne
    have ev12 : Evolves n t r g1 G2 := hG2 ▸ ff_evolves n t r htr f g1 (x + 1) y
    have ev23 : Evolves n t r G2 G3 := hG3 ▸ ff_evolves n t r htr f G2 (x - 1) y
    have ev34 : Evolves n t r G3 G4 := hG4 ▸ ff_evolves n t r htr f G3 x (y + 1)
    have ev02 : Evolves n t r g G2 := evolves_trans htr ev01 ev12
    have ev03 : Evolves n t r g G3 := evolves_trans htr ev02 ev23
    have ev04 : Evolves n t r g G4 := evolves_trans htr ev03 ev34
    -- transporting a region statement about an intermediate grid back to g,
    -- through a start cell adjacent to (x, y)
    have transport :
        ∀ (gi : PixelGrid) (s : Int × Int), Evolves n t r g gi → Adj (x, y) s →
          InRegion n gi t s (a, b) → InRegion n g t (x, y) (a, b) := by
      rintro gi s evi hadj ⟨hbs, hts, hchain⟩
      have hsub : ∀ a' b' : Int, gi a' b' = t → g a' b' = t :=
        fun a' b' hv => evolves_t_subset htr evi hv
      refine ⟨hb, hne, Relation.ReflTransGen.head ⟨hadj, hbs, hsub _ _ hts⟩ ?_⟩
      refine Relation.ReflTransGen.mono ?_ hchain
      intro u v huv
      exact ⟨huv.1, huv.2.1, hsub _ _ huv.2.2⟩
    -- locate the stage that changed cell (a, b)
    by_cases h45 : G5 a b = G4 a b
    · rw [h45] at h
      by_cases h34 : G4 a b = G3 a b
      · rw [h34] at h
        by_cases h23 : G3 a b = G2 a b
        · rw [h23] at h
          by_cases h12 : G2 a b = g1 a b
          · rw [h12] at h
            -- changed by setCell: (a, b) = (x, y)
            have hab : a = x ∧ b = y := by
              by_contra hc
              exact h (by simp [hg1, setCell, hc])
            exact ⟨hb, hne, hab.1 ▸ hab.2 ▸ Relation.ReflTransGen.refl⟩
          · exact transport g1 (x + 1, y) ev01 (Or.inl ⟨rfl, rfl⟩)
              (ih g1 (x + 1) y a b h12)
        · exact transport G2 (x - 1, y) ev02 (Or.inr (Or.inl ⟨rfl, rfl⟩))
            (ih G2 (x - 1) y a b h23)
      · exact transport G3 (x, y + 1) ev03 (Or.inr (Or.inr (Or.inl ⟨rfl, rfl⟩)))
          (ih G3 x (y + 1) a b h34)
    · exact transport G4 (x, y - 1) ev04 (Or.inr (Or.inr (Or.inr ⟨rfl, rfl⟩)))
        (ih G4 x (y - 1) a b h45)

/-- The in-bounds cells of an `n × n` grid, as a finite set. -/
def cellRange (n : Nat) : Finset (Int × Int) :=
  (Finset.range n ×ˢ Finset.range n).image fun p => ((p.1 : Int), (p.2 : Int))

theorem mem_cellRange {n : Nat} {p : Int × Int} :
    p ∈ cellRange n ↔ inBounds n p.1 p.2 := by
  unfold cellRange inBounds
  simp only [Finset.mem_image, Finset.mem_product, Finset.mem_range, Prod.exists]
  constructor
  · rintro ⟨a, b, ⟨ha, hb⟩, rfl⟩
    refine ⟨?_, ?_, ?_, ?_⟩ <;> simp <;> omega
  · rintro ⟨h1, h2, h3, h4⟩
    refine ⟨p.1.toNat, p.2.toNat, ⟨?_, ?_⟩, ?_⟩
    · omega
    · omega
    · simp only [Int.toNat_of_nonneg h1, Int.toNat_of_nonneg h3]

/-- The in-bounds cells of `g` colored `t`. -/
def tCells (n : Nat) (g : PixelGrid) (t : Color) : Finset (Int × Int) :=
  (cellRange n).filter fun p => g p.1 p.2 = t

theorem mem_tCells {n : Nat} {g : PixelGrid} {t : Color} {p : Int × Int} :
    p ∈ tCells n g t ↔ inBounds n p.1 p.2 ∧ g p.1 p.2 = t := by
  unfold tCells
  rw [Finset.mem_filter, mem_cellRange]

theorem card_tCells_le (n : Nat) (g : PixelGrid) (t : Color) :
    (tCells n g t).card ≤ n * n := by
  calc (tCells n g t).card ≤ (cellRange n).card := Finset.card_filter_le _ _
    _ ≤ (Finset.range n ×ˢ Finset.range n).card := Finset.card_image_le
    _ = n * n := by rw [Finset.card_product, Finset.card_range]

theorem tCells_setCell {n : Nat} {g : PixelGrid} {t r : Color} {x y : Int}
    (htr : t ≠ r) :
    tCells n (setCell g x y r) t = (tCells n g t).erase (x, y) := by
  ext p
  rw [Finset.mem_erase, mem_tCells, mem_tCells]
  simp only [setCell]
  by_cases h : p.1 = x ∧ p.2 = y
  · have hp : p = (x, y) := Prod.ext h.1 h.2
    rw [if_pos h]
    constructor
    · rintro ⟨hb, hv⟩
      exact absurd hv.symm htr
    · rintro ⟨hne, hb, hv⟩
      exact absurd hp hne
  · rw [if_neg h]
    constructor
    · rintro ⟨hb, hv⟩
      refine ⟨?_, hb, hv⟩
      intro hp
      apply h
      rw [hp]
      exact ⟨rfl, rfl⟩
    · rintro ⟨hne, hb, hv⟩
      exact ⟨hb, hv⟩

theorem tCells_subset_of_evolves {n : Nat} {g g' : PixelGrid} {t r : Color}
    (htr : t ≠ r) (h : Evolves n t r g g') : tCells n g' t ⊆ tCells n g t := by
  intro p hp
  rw [mem_tCells] at hp ⊢
  exact ⟨hp.1, evolves_t_subset htr h hp.2⟩

/-- Completeness ingredients: with fuel exceeding the number of
target-colored cells, (i) the start cell ends up non-target, and
(ii) every in-bounds neighbor of a recolored cell ends up non-target. -/
theorem ff_complete (n : Nat) (t r : Color) (htr : t ≠ r) :
    ∀ (f : Nat) (g : PixelGrid) (x y : Int), (tCells n g t).card < f →
      (inBounds n x y → floodFillF n f g x y t r x y ≠ t) ∧
      (∀ a b : Int, floodFillF n f g x y t r a b ≠ g a b →
        ∀ c d : Int, Adj (a, b) (c, d) → inBounds n c d →
          floodFillF n f g x y t r c d ≠ t) := by
  intro f
  induction f with
  | zero => intro g x y hf; omega
  | succ f ih =>
    intro g x y hf
    rw [floodFillF, if_neg htr]
    by_cases hoob : outOfRange n x y
    · rw [if_pos hoob]
      constructor
      · intro hbxy
        exact absurd hbxy (by unfold outOfRange at hoob; unfold inBounds; omega)
      · intro a b hab
        exact absurd rfl hab
    rw [if_neg hoob]
    by_cases hne : g x y ≠ t
    · rw [if_pos hne]
      exact ⟨fun _ => hne, fun a b hab => absurd rfl hab⟩
    rw [if_neg hne]
    push_neg at hne
    have hb : inBounds n x y := by unfold outOfRange at hoob; unfold inBounds; omega
    set g1 := setCell g x y r with hg1
    set G2 := floodFillF n f g1 (x + 1) y t r with hG2
    set G3 := floodFillF n f G2 (x - 1) y t r with hG3
    set G4 := floodFillF n f G3 x (y + 1) t r with hG4
    set G5 := floodFillF n f G4 x (y - 1) t r with hG5
    have ev01 : Evolves n t r g g1 := evolves_setCell hb hne
    have ev12 : Evolves n t r g1 G2 := hG2 ▸ ff_evolves n t r htr f g1 (x + 1) y
    have ev23 : Evolves n t r G2 G3 := hG3 ▸ ff_evolves n t r htr f G2 (x - 1) y
    have ev34 : Evolves n t r G3 G4 := hG4 ▸ ff_evolves n t r htr f G3 x (y + 1)
    have ev45 : Evolves n t r G4 G5 := hG5 ▸ ff_evolves n t r htr f G4 x (y - 1)
    have ev25 : Evolves n t r G2 G5 :=
      evolves_trans htr ev23 (evolves_trans htr ev34 ev45)
    have ev35 : Evolves n t r G3 G5 := evolves_trans htr ev34 ev45
    have ev15 : Evolves n t r g1 G5 := evolves_trans htr ev12 ev25
    -- fuel accounting: each intermediate grid has fewer than f target cells
    have hmem : (x, y) ∈ tCells n g t := mem_tCells.mpr ⟨hb, hne⟩
    have hcard1 : (tCells n g1 t).card < f := by
      rw [hg1, tCells_setCell htr]
      have := Finset.card_erase_of_mem hmem
      have hpos : 0 < (tCells n g t).card := Finset.card_pos.mpr ⟨(x, y), hmem⟩
      omega
    have hcard2 : (tCells n G2 t).card < f :=
      lt_of_le_of_lt (Finset.card_le_card (tCells_subset_of_evolves htr ev12)) hcard1
    have hcard3 : (tCells n G3 t).card < f :=
      lt_of_le_of_lt (Finset.card_le_card (tCells_subset_of_evolves htr ev23)) hcard2
    have hcard4 : (tCells n G4 t).card < f :=
      lt_of_le_of_lt (Finset.card_le_card (tCells_subset_of_evolves htr ev34)) hcard3
    have ih1 := ih g1 (x + 1) y hcard1
    have ih2 := ih G2 (x - 1) y hcard2
    have ih3 := ih G3 x (y + 1) hcard3
    have ih4 := ih G4 x (y - 1) hcard4
    -- the four start cells are non-target in the final grid when in bounds
    have hstart1 : inBounds n (x + 1) y → G5 (x + 1) y ≠ t :=
      fun hbs => evolves_keeps_ne_t htr ev25 (ih1.1 hbs)
    have hstart2 : inBounds n (x - 1) y → G5 (x - 1) y ≠ t :=
      fun hbs => evolves_keeps_ne_t htr ev35 (ih2.1 hbs)
    have hstart3 : inBounds n x (y + 1) → G5 x (y + 1) ≠ t :=
      fun hbs => evolves_keeps_ne_t htr ev45 (ih3.1 hbs)
    have hstart4 : inBounds n x (y - 1) → G5 x (y - 1) ≠ t := ih4.1
    have hroot : G5 x y = r := by
      have h1 : g1 x y = r := by simp [hg1, setCell]
      exact evolves_keeps_r htr ev15 h1
    constructor
    · intro _
      rw [hroot]
      exact fun hv => htr hv.symm
    · intro a b hab c d hadj hbc
      -- find the stage that changed (a, b)
      by_cases h45 : G5 a b = G4 a b
      · rw [h45] at hab
        by_cases h34 : G4 a b = G3 a b
        · rw [h34] at hab
          by_cases h23 : G3 a b = G2 a b
          · rw [h23] at hab
            by_cases h12 : G2 a b = g1 a b
            · rw [h12] at hab
              -- changed by setCell: (a, b) = (x, y); neighbors are the four starts
              have hxy : a = x ∧ b = y := by
                by_contra hc
                exact hab (by simp [hg1, setCell, hc])
              obtain ⟨rfl, rfl⟩ : a = x ∧ b = y := hxy
              rcases hadj with ⟨hc1, hc2⟩ | ⟨hc1, hc2⟩ | ⟨hc1, hc2⟩ | ⟨hc1, hc2⟩ <;>
                simp only at hc1 hc2 <;> subst hc1 <;> subst hc2
              · exact hstart1 hbc
              · exact hstart2 hbc
              · exact hstart3 hbc
              · exact hstart4 hbc
            · exact evolves_keeps_ne_t htr ev25 (ih1.2 a b h12 c d hadj hbc)
          · exact evolves_keeps_ne_t htr ev35 (ih2.2 a b h23 c d hadj hbc)
        · exact evolves_keeps_ne_t htr ev45 (ih3.2 a b h34 c d hadj hbc)
      · exact ih4.2 a b h45 c d hadj hbc

/-- With sufficient fuel, every cell of the region is recolored to `r`. -/
theorem ff_region_r (n : Nat) (t r : Color) (htr : t ≠ r) (f : Nat)
    (g : PixelGrid) (x y : Int) (hf : (tCells n g t).card < f)
    (hb : inBounds n x y) (hxy : g x y = t) :
    ∀ p : Int × Int, InRegion n g t (x, y) p →
      floodFillF n f g x y t r p.1 p.2 = r := by
  have hev : Evolves n t r g (floodFillF n f g x y t r) := ff_evolves n t r htr f g x y
  have hcomp := ff_complete n t r htr f g x y hf
  have key : ∀ p : Int × Int, Relation.ReflTransGen (RegionStep n g t) (x, y) p →
      floodFillF n f g x y t r p.1 p.2 = r ∧ g p.1 p.2 = t := by
    intro p hchain
    induction hchain with
    | refl =>
      refine ⟨?_, hxy⟩
      have h1 : floodFillF n f g x y t r x y ≠ t := hcomp.1 hb
      rcases hev x y with h | ⟨_, hr, _⟩
      · exact absurd (h.trans hxy) h1
      · exact hr
    | tail _ hstep ihc =>
      rename_i b c _
      obtain ⟨hvb, htb⟩ := ihc
      obtain ⟨hadj, hbc, hgc⟩ := hstep
      have hchanged : floodFillF n f g x y t r b.1 b.2 ≠ g b.1 b.2 := by
        rw [hvb, htb]
        exact fun hv => htr hv.symm
      have hnc : floodFillF n f g x y t r c.1 c.2 ≠ t := by
        have := hcomp.2 b.1 b.2 hchanged c.1 c.2
        simp only [Prod.mk.eta] at this
        exact this hadj hbc
      refine ⟨?_, hgc⟩
      rcases hev c.1 c.2 with h | ⟨_, hr, _⟩
      · exact absurd (h.trans hgc) hnc
      · exact hr
  intro p hp
  exact (key p hp.2.2).1

/-- Cells outside the region keep their original color. -/
theorem ff_outside_unchanged (n : Nat) (t r : Color) (htr : t ≠ r) (f : Nat)
    (g : PixelGrid) (x y : Int) :
    ∀ p : Int × Int, ¬ InRegion n g t (x, y) p →
      floodFillF n f g x y t r p.1 p.2 = g p.1 p.2 := by
  intro p hp
  by_contra hc
  exact hp (ff_sound n t r htr f g x y p.1 p.2 hc)

theorem card_lt_fill_fuel (n : Nat) (g : PixelGrid) (t : Color) :
    (tCells n g t).card < n * n + 1 :=
  Nat.lt_succ_of_le (card_tCells_le n g t)

/--
C1: `floodFill` at `(x, y)` with replacement `r` — with the target color
read at `(x, y)`, as the bucket tool does — is a no-op when that target
equals `r` (including empty = empty) or when `(x, y)` is out of bounds;
otherwise it recolors to `r` exactly the maximal 4-connected region of
cells equal to the original target color that contains `(x, y)`, and
leaves every cell outside that region unchanged.
-/
theorem C1_floodFill_correct (n : Nat) (g : PixelGrid) (x y : Int) (r : Color) :
    (g x y = r ∨ ¬ inBounds n x y → floodFill n g x y (g x y) r = g) ∧
    (g x y ≠ r → inBounds n x y →
      (∀ p : Int × Int, InRegion n g (g x y) (x, y) p →
        floodFill n g x y (g x y) r p.1 p.2 = r) ∧
      (∀ p : Int × Int, ¬ InRegion n g (g x y) (x, y) p →
        floodFill n g x y (g x y) r p.1 p.2 = g p.1 p.2)) := by
  constructor
  · intro h
    unfold floodFill
    rw [floodFillF]
    rcases h with h | h
    · rw [if_pos h]
    · by_cases hr : g x y = r
      · rw [if_pos hr]
      · rw [if_neg hr, if_pos (show outOfRange n x y by
          unfold inBounds at h; unfold outOfRange; omega)]
  · intro hne hb
    constructor
    · exact ff_region_r n (g x y) r (fun hv => hne hv) (n * n + 1) g x y
        (card_lt_fill_fuel n g (g x y)) hb rfl
    · exact ff_outside_unchanged n (g x y) r (fun hv => hne hv) (n * n + 1) g x y

/--
`floodFill` instrumented with its nested call depth: the same recursion
as `floodFillF`, additionally returning the maximum number of
simultaneously active stack frames (each call contributes one frame; a
call that returns at a guard still occupies one frame).
-/
def floodFillDepthF (n : Nat) :
    Nat → PixelGrid → Int → Int → Color → Color → PixelGrid × Nat
  | 0, g, _, _, _, _ => (g, 0)
  | fuel + 1, g, x, y, t, r =>
    if t = r then (g, 1)
    else if outOfRange n x y then (g, 1)
    else if g x y ≠ t then (g, 1)
    else
      let g1 := setCell g x y r
      let p1 := floodFillDepthF n fuel g1 (x + 1) y t r
      let p2 := floodFillDepthF n fuel p1.1 (x - 1) y t r
      let p3 := floodFillDepthF n fuel p2.1 x (y + 1) t r
      let p4 := floodFillDepthF n fuel p3.1 x (y - 1) t r
      (p4.1, 1 + max (max p1.2 p2.2) (max p3.2 p4.2))

/-- The instrumented recursion computes the same grid as `floodFillF`. -/
theorem floodFillDepthF_fst (n : Nat) :
    ∀ (f : Nat) (g : PixelGrid) (x y : Int) (t r : Color),
      (floodFillDepthF n f g x y t r).1 = floodFillF n f g x y t r := by
  intro f
  induction f with
  | zero => intro g x y t r; rfl
  | succ f ih =>
    intro g x y t r
    rw [floodFillDepthF, floodFillF]
    by_cases h1 : t = r
    · rw [if_pos h1, if_pos h1]
    rw [if_neg h1, if_neg h1]
    by_cases h2 : outOfRange n x y
    · rw [if_pos h2, if_pos h2]
    rw [if_neg h2, if_neg h2]
    by_cases h3 : g x y ≠ t
    · rw [if_pos h3, if_pos h3]
    rw [if_neg h3, if_neg h3]
    simp only [ih]

/--
C2 (code evaluated at the failing shape of input): the source `floodFill`
is naive 4-way self-recursion with no explicit frontier and no visited
set; on a uniformly colored `k × k` grid its nested call depth is
`k² + 1` — every cell of the filled region sits on a single chain of
simultaneously active stack frames — demonstrated here at 3×3 (depth 10)
and 4×4 (depth 17).  The depth grows with the grid area, so at the
largest supported size (64×64) the fill nests 4097 frames, contradicting
the claimed iterative frontier traversal with bounded call depth.
-/
theorem C2_recursion_depth_unbounded :
    (floodFillDepthF 3 10 (fun _ _ => "#000000") 0 0 "#000000" "#ffffff").2 = 10 ∧
    (floodFillDepthF 4 17 (fun _ _ => "#000000") 0 0 "#000000" "#ffffff").2 = 17 :=
  ⟨by decide, by decide⟩

/-- A concrete 2×2 grid: column `x = 0` red, column `x = 1` blue. -/
def gW : PixelGrid := fun x _ => if x = 0 then "#ff0000" else "#0000ff"

/-- Witness for C1 at a concrete input: filling the red cell `(0, 0)` of
`gW` with green recolors the red column and leaves the blue column. -/
theorem C1_witness :
    gW 0 0 ≠ "#00ff00" ∧ inBounds 2 0 0 ∧
    floodFill 2 gW 0 0 (gW 0 0) "#00ff00" 0 1 = "#00ff00" ∧
    floodFill 2 gW 0 0 (gW 0 0) "#00ff00" 1 0 = gW 1 0 := by
  have hne : gW 0 0 ≠ "#00ff00" := by decide
  have hb : inBounds 2 0 0 := by decide
  have h2 := (C1_floodFill_correct 2 gW 0 0 "#00ff00").2 hne hb
  refine ⟨hne, hb, ?_, ?_⟩
  · exact h2.1 (0, 1)
      ⟨hb, rfl, Relation.ReflTransGen.single ⟨by decide, by decide, by decide⟩⟩
  · refine h2.2 (1, 0) ?_
    intro hreg
    have hv := inRegion_target hreg
    exact absurd hv (by decide)

/-- The tools of the editor (source line 35). -/
inductive Tool
  | pencil
  | eraser
  | bucket
  | picker
deriving DecidableEq

/-- A layer (source lines 27–33). -/
structure Layer where
  id : String
  name : String
  visible : Bool
  opacity : Int
  grid : PixelGrid

/-- One history snapshot (source lines 37–40). -/
structure HistoryState where
  layers : List Layer
  gridSize : Nat

/-- The component state relevant to the core (source lines 87–98).
The source initializes `historyIndex` to `-1` as a pre-initialization
sentinel; the init effect (lines 104–110) sets it to `0` before any
operation runs, so an initialized index is a natural number. -/
structure EditorState where
  gridSize : Nat
  layers : List Layer
  activeLayerId : String
  selectedColor : Color
  tool : Tool
  history : List HistoryState
  historyIndex : Nat

/-- Source line 45. -/
def MAX_HISTORY : Nat := 20

/-- Source lines 75–79: an all-empty grid.  With function-valued grids
the size is extrinsic; the parameter is kept for the source signature. -/
def createEmptyGrid (_size : Nat) : PixelGrid := fun _ _ => ""

/--
`addToHistory` (source lines 114–125), returning the new history array
and the new index.  `history.slice(0, historyIndex + 1)` is `take`,
`push` is append, `shift()` drops the first entry, and JSON deep-copying
the layers is the identity on values.
-/
def addToHistory (history : List HistoryState) (historyIndex : Nat)
    (newLayers : List Layer) (newGridSize : Nat) : List HistoryState × Nat :=
  let newState : HistoryState := ⟨newLayers, newGridSize⟩
  let newHistory := history.take (historyIndex + 1) ++ [newState]
  let newHistory := if MAX_HISTORY < newHistory.length then newHistory.drop 1 else newHistory
  (newHistory, newHistory.length - 1)

/-- `undo` (source lines 127–134).  `history[historyIndex - 1]` always
exists in reachable states; an out-of-range read would crash in the
source, modeled as a no-op branch. -/
def undo (st : EditorState) : EditorState :=
  if 0 < st.historyIndex then
    match st.history[st.historyIndex - 1]? with
    | some prevState =>
      { st with layers := prevState.layers, gridSize := prevState.gridSize,
                historyIndex := st.historyIndex - 1 }
    | none => st
  else st

/-- `redo` (source lines 136–143). -/
def redo (st : EditorState) : EditorState :=
  if st.historyIndex < st.history.length - 1 then
    match st.history[st.historyIndex + 1]? with
    | some nextState =>
      { st with layers := nextState.layers, gridSize := nextState.gridSize,
                historyIndex := st.historyIndex + 1 }
    | none => st
  else st

/-- The picker loop of `handleDraw` (source lines 190–196): scan a list
of layers for the first visible one with a non-empty cell at `(x, y)`;
the list is passed top-most layer first. -/
def pickScan : List Layer → Int → Int → Option Color
  | [], _, _ => none
  | l :: rest, x, y =>
    if l.visible = true ∧ l.grid x y ≠ "" then some (l.grid x y)
    else pickScan rest x y

/--
`handleDraw` (source lines 179–215).  Aliasing note for the bucket
branch: the source clones the active layer's grid into a local
`newLayers` array, but `floodFill` re-derives its grid from the `layers`
state variable, so the fill mutates the pre-existing grid in place (and
publishes it via `setLayers`), while `addToHistory` receives the local
`newLayers`, whose active grid is the row-copy taken BEFORE the fill —
as a value, exactly `st.layers`.  The translation below threads both
values explicitly.
-/
def handleDraw (st : EditorState) (x y : Int) (isClick : Bool) : EditorState :=
  if outOfRange st.gridSize x y then st
  else
    match st.layers.findIdx? (fun l => l.id == st.activeLayerId) with
    | none => st
    | some layerIndex =>
      match st.layers[layerIndex]? with
      | none => st
      | some currentLayer =>
        if currentLayer.visible = false then st
        else
          match st.tool with
          | Tool.picker =>
            match pickScan st.layers.reverse x y with
            | some c => { st with selectedColor := c, tool := Tool.pencil }
            | none => st
          | Tool.bucket =>
            if isClick then
              let targetColor := currentLayer.grid x y
              let filled := floodFill st.gridSize currentLayer.grid x y
                targetColor st.selectedColor
              let liveLayers := st.layers.set layerIndex
                { currentLayer with grid := filled }
              let h := addToHistory st.history st.historyIndex st.layers st.gridSize
              { st with layers := liveLayers, history := h.1, historyIndex := h.2 }
            else st
          | _ =>
            let color := if st.tool = Tool.eraser then "" else st.selectedColor
            if currentLayer.grid x y ≠ color then
              let painted :=
                { currentLayer with grid := setCell currentLayer.grid x y color }
              { st with layers := st.layers.set layerIndex painted }
            else st

/-- `deleteLayer` (source lines 252–260): a silent no-op when at most one
layer exists; otherwise filters out layers with the given id, reassigns
the active layer if it was deleted, and commits.  The source reads
`newLayers[newLayers.length - 1].id`, which would crash if the filter
removed everything; that branch (unreachable under unique ids) keeps the
active id. -/
def deleteLayer (st : EditorState) (id : String) : EditorState :=
  if st.layers.length ≤ 1 then st
  else
    let newLayers := st.layers.filter fun l => l.id != id
    let active :=
      if st.activeLayerId = id then
        match newLayers.getLast? with
        | some l => l.id
        | none => st.activeLayerId
      else st.activeLayerId
    let h := addToHistory st.history st.historyIndex newLayers st.gridSize
    { st with layers := newLayers, activeLayerId := active,
              history := h.1, historyIndex := h.2 }

/-- `updateLayerOpacity` (source lines 268–272): stores the given value
verbatim in the layer with the matching id; no clamping, no validation,
no history commit. -/
def updateLayerOpacity (layers : List Layer) (id : String) (opacity : Int) :
    List Layer :=
  layers.map fun l => if l.id = id then { l with opacity := opacity } else l

/-- `changeGridSize` (source lines 274–289): no-op at the current size;
otherwise each layer gets a grid that keeps cells with both coordinates
below `min size gridSize` (the net effect of copying the overlap into an
empty grid, top-left aligned) and is empty elsewhere, then the new
document is committed. -/
def changeGridSize (st : EditorState) (size : Nat) : EditorState :=
  if size = st.gridSize then st
  else
    let m : Nat := min size st.gridSize
    let newLayers := st.layers.map fun layer =>
      { layer with grid := fun x y =>
          if 0 ≤ x ∧ x < (m : Int) ∧ 0 ≤ y ∧ y < (m : Int) then layer.grid x y
          else "" }
    let h := addToHistory st.history st.historyIndex newLayers size
    { st with gridSize := size, layers := newLayers,
              history := h.1, historyIndex := h.2 }

/-- The initial component state (source lines 87–98); `historyIndex` is
the source's `-1` sentinel, represented before initialization as `0` —
the init effect below overwrites it before any operation. -/
def initialState : EditorState :=
  { gridSize := 16
    layers := [⟨"layer-1", "Layer 1", true, 100, createEmptyGrid 16⟩]
    activeLayerId := "layer-1"
    selectedColor := "#ff6b00"
    tool := Tool.pencil
    history := []
    historyIndex := 0 }

/-- The history-initialization effect (source lines 104–110). -/
def initHistory (st : EditorState) : EditorState :=
  if st.history.length = 0 then
    { st with history := [⟨st.layers, st.gridSize⟩], historyIndex := 0 }
  else st

/-- One commit boundary: the caller publishes a new document
(`setLayers`/`setGridSize`) and records it via `addToHistory`, the shared
pattern of `addLayer`, `deleteLayer`, `toggleLayerVisibility`,
`changeGridSize` and `handlePointerUp` (e.g. source lines 262–266). -/
def commitStep (st : EditorState) (d : HistoryState) : EditorState :=
  let h := addToHistory st.history st.historyIndex d.layers d.gridSize
  { st with layers := d.layers, gridSize := d.gridSize,
            history := h.1, historyIndex := h.2 }

/-- The error taxonomy of the spec (§7). -/
inductive EditError
  | outOfBounds
  | layerNotFound
  | lastLayerError
  | invalidArgument
deriving DecidableEq

/-- Modelled from the spec (§4.3), for comparison with the source's
`deleteLayer`: "fails with `LastLayerError` if it is the only layer";
otherwise removes the layer with the given id. -/
def deleteLayerSpec (layers : List Layer) (id : String) :
    Except EditError (List Layer) :=
  if layers.length = 1 then Except.error EditError.lastLayerError
  else Except.ok (layers.filter fun l => l.id != id)

/-- Index of the last element of a list with one element appended. -/
theorem getElem_concat {α : Type} (A : List α) (s : α) :
    (A ++ [s])[A.length]? = some s := List.getElem?_concat_length A s

/--
C3: for a history with `cursor < entries.length` (and the standing
invariant `entries.length ≤ 20`, which `addToHistory` itself establishes
after every commit), `addToHistory` discards the entries after the
cursor, appends the snapshot `⟨L, n⟩`, and leaves the cursor at the new
last index; when the length would exceed the capacity 20 the oldest
entry is dropped and the cursor still addresses the just-committed
snapshot; the resulting length never exceeds 20, so no entry older than
capacity steps back survives for `undo` to reach.
-/
theorem C3_addToHistory_commit (entries : List HistoryState) (cursor : Nat)
    (L : List Layer) (n : Nat) (h1 : cursor < entries.length)
    (h2 : entries.length ≤ 20) :
    (addToHistory entries cursor L n).1 =
      (entries.take (cursor + 1) ++ [(⟨L, n⟩ : HistoryState)]).drop
        (if 20 < cursor + 2 then 1 else 0) ∧
    (addToHistory entries cursor L n).2 =
      (addToHistory entries cursor L n).1.length - 1 ∧
    (addToHistory entries cursor L n).1[(addToHistory entries cursor L n).2]? =
      some (⟨L, n⟩ : HistoryState) ∧
    (addToHistory entries cursor L n).1.length ≤ 20 := by
  have htake : (entries.take (cursor + 1)).length = cursor + 1 := by
    rw [List.length_take]; omega
  set s : HistoryState := ⟨L, n⟩ with hs
  set X : List HistoryState := entries.take (cursor + 1) ++ [s] with hX
  have hlen0 : X.length = cursor + 2 := by
    rw [hX, List.length_append, htake, List.length_singleton]
  have hmain : addToHistory entries cursor L n =
      ((if 20 < X.length then X.drop 1 else X),
       (if 20 < X.length then X.drop 1 else X).length - 1) := rfl
  by_cases hc : 20 < cursor + 2
  · have hifX : (if 20 < X.length then X.drop 1 else X) = X.drop 1 := by
      rw [hlen0, if_pos hc]
    have hA : (addToHistory entries cursor L n).1 = X.drop 1 := by
      rw [hmain]
      show (if 20 < X.length then X.drop 1 else X) = X.drop 1
      exact hifX
    have hB : (addToHistory entries cursor L n).2 = (X.drop 1).length - 1 := by
      rw [hmain]
      show (if 20 < X.length then X.drop 1 else X).length - 1 = (X.drop 1).length - 1
      rw [hifX]
    have hdl : (X.drop 1).length = cursor + 1 := by
      rw [List.length_drop, hlen0]
      omega
    refine ⟨?_, ?_, ?_, ?_⟩
    · rw [hA, if_pos hc]
    · rw [hA, hB]
    · rw [hA, hB, hdl, Nat.add_sub_cancel, List.getElem?_drop]
      have hidx : 1 + cursor = (entries.take (cursor + 1)).length := by omega
      rw [hidx, hX]
      exact getElem_concat _ s
    · rw [hA, hdl]
      omega
  · have hifX : (if 20 < X.length then X.drop 1 else X) = X := by
      rw [hlen0, if_neg hc]
    have hA : (addToHistory entries cursor L n).1 = X := by
      rw [hmain]
      show (if 20 < X.length then X.drop 1 else X) = X
      exact hifX
    have hB : (addToHistory entries cursor L n).2 = X.length - 1 := by
      rw [hmain]
      show (if 20 < X.length then X.drop 1 else X).length - 1 = X.length - 1
      rw [hifX]
    refine ⟨?_, ?_, ?_, ?_⟩
    · rw [hA, if_neg hc, List.drop_zero]
    · rw [hA, hB]
    · rw [hA, hB, hlen0]
      have hidx : cursor + 2 - 1 = (entries.take (cursor + 1)).length := by omega
      rw [hidx, hX]
      exact getElem_concat _ s
    · rw [hA, hlen0]
      omega

/-- Witness for C3 at a concrete input: committing onto a two-entry
history with the cursor at the first entry truncates the redo entry. -/
theorem C3_witness :
    (0 : Nat) < 2 ∧ (2 : Nat) ≤ 20 ∧
    (addToHistory [⟨[], 8⟩, ⟨[], 16⟩] 0 [] 32).1 = [⟨[], 8⟩, ⟨[], 32⟩] ∧
    (addToHistory [⟨[], 8⟩, ⟨[], 16⟩] 0 [] 32).2 = 1 := by
  have h := C3_addToHistory_commit [⟨[], 8⟩, ⟨[], 16⟩] 0 [] 32 (by decide) (by decide)
  refine ⟨by decide, by decide, ?_, ?_⟩
  · rw [h.1]; rfl
  · rw [h.2.1, h.1]; rfl

/-- What `addToHistory` guarantees unconditionally: a non-empty result
whose cursor addresses the just-committed snapshot at the last index. -/
theorem addToHistory_spec (history : List HistoryState) (cursor : Nat)
    (L : List Layer) (n : Nat) :
    (addToHistory history cursor L n).1 ≠ [] ∧
    (addToHistory history cursor L n).2 =
      (addToHistory history cursor L n).1.length - 1 ∧
    (addToHistory history cursor L n).1[(addToHistory history cursor L n).2]? =
      some (⟨L, n⟩ : HistoryState) := by
  set s : HistoryState := ⟨L, n⟩ with hs
  set A : List HistoryState := history.take (cursor + 1) with hA
  set X : List HistoryState := A ++ [s] with hX
  have hXlen : X.length = A.length + 1 := by
    rw [hX, List.length_append, List.length_singleton]
  have hmain : addToHistory history cursor L n =
      ((if 20 < X.length then X.drop 1 else X),
       (if 20 < X.length then X.drop 1 else X).length - 1) := rfl
  by_cases hc : 20 < X.length
  · have hA1 : (addToHistory history cursor L n).1 = X.drop 1 := by
      rw [hmain]
      show (if 20 < X.length then X.drop 1 else X) = X.drop 1
      rw [if_pos hc]
    have hB1 : (addToHistory history cursor L n).2 = (X.drop 1).length - 1 := by
      rw [hmain]
      show (if 20 < X.length then X.drop 1 else X).length - 1 = (X.drop 1).length - 1
      rw [if_pos hc]
    have hdl : (X.drop 1).length = X.length - 1 := List.length_drop 1 X
    refine ⟨?_, ?_, ?_⟩
    · rw [hA1]
      apply List.length_pos.mp
      rw [hdl]
      omega
    · rw [hA1, hB1]
    · rw [hA1, hB1, hdl, List.getElem?_drop]
      have hidx : 1 + (X.length - 1 - 1) = A.length := by omega
      rw [hidx, hX]
      exact getElem_concat A s
  · have hA1 : (addToHistory history cursor L n).1 = X := by
      rw [hmain]
      show (if 20 < X.length then X.drop 1 else X) = X
      rw [if_neg hc]
    have hB1 : (addToHistory history cursor L n).2 = X.length - 1 := by
      rw [hmain]
      show (if 20 < X.length then X.drop 1 else X).length - 1 = X.length - 1
      rw [if_neg hc]
    refine ⟨?_, ?_, ?_⟩
    · rw [hA1]
      apply List.length_pos.mp
      omega
    · rw [hA1, hB1]
    · rw [hA1, hB1]
      have hidx : X.length - 1 = A.length := by omega
      rw [hidx, hX]
      exact getElem_concat A s

/-- The invariant of an initialized editor after any run of commits: a
non-empty history whose cursor sits at the last entry, which snapshots
the live document. -/
def GoodState (st : EditorState) : Prop :=
  st.history ≠ [] ∧ st.historyIndex = st.history.length - 1 ∧
    st.history[st.historyIndex]? = some (⟨st.layers, st.gridSize⟩ : HistoryState)

theorem goodState_init : GoodState (initHistory initialState) := by
  unfold GoodState initHistory initialState
  refine ⟨?_, ?_, ?_⟩ <;> simp

theorem goodState_commit (st : EditorState) (d : HistoryState) :
    GoodState (commitStep st d) := by
  have hs := addToHistory_spec st.history st.historyIndex d.layers d.gridSize
  exact ⟨hs.1, hs.2.1, hs.2.2⟩

theorem goodState_fold (docs : List HistoryState) :
    ∀ st : EditorState, GoodState st → GoodState (docs.foldl commitStep st) := by
  induction docs with
  | nil => intro st h; exact h
  | cons d rest ih =>
    intro st h
    exact ih (commitStep st d) (goodState_commit st d)

theorem undo_at_zero (st : EditorState) (h : st.historyIndex = 0) : undo st = st := by
  unfold undo
  rw [if_neg (by omega)]

theorem redo_at_last (st : EditorState)
    (h : st.historyIndex = st.history.length - 1) : redo st = st := by
  unfold redo
  rw [if_neg (by omega)]

theorem undo_redo_of_good (st : EditorState) (h : GoodState st) :
    redo (undo st) = st := by
  obtain ⟨hne, hidx, hget⟩ := h
  have hlen : 0 < st.history.length := List.length_pos.mpr hne
  by_cases hzero : st.historyIndex = 0
  · rw [undo_at_zero st hzero]
    exact redo_at_last st hidx
  · have hidxlt : st.historyIndex - 1 < st.history.length := by omega
    obtain ⟨prev, hprev⟩ : ∃ e, st.history[st.historyIndex - 1]? = some e :=
      ⟨st.history[st.historyIndex - 1], List.getElem?_eq_getElem hidxlt⟩
    have hu : undo st =
        { st with layers := prev.layers, gridSize := prev.gridSize,
                  historyIndex := st.historyIndex - 1 } := by
      unfold undo
      rw [if_pos (by omega), hprev]
    rw [hu]
    unfold redo
    rw [if_pos (by show st.historyIndex - 1 < st.history.length - 1; omega)]
    have hsucc : st.historyIndex - 1 + 1 = st.historyIndex := by omega
    rw [hsucc, hget]

/--
C4: for any history produced by initialization followed by a run of
commits not exceeding the capacity, with the live document recorded at
the cursor (which commits maintain), `undo` followed by `redo` restores
exactly the pre-undo state (layers, grid size, history and cursor);
moreover `undo` is a silent no-op at cursor 0, and `redo` is a no-op
when the cursor is at the last entry.
-/
theorem C4_undo_redo_roundtrip (docs : List HistoryState)
    (hcap : docs.length + 1 ≤ 20) :
    redo (undo (docs.foldl commitStep (initHistory initialState))) =
      docs.foldl commitStep (initHistory initialState) ∧
    ((docs.foldl commitStep (initHistory initialState)).historyIndex = 0 →
      undo (docs.foldl commitStep (initHistory initialState)) =
        docs.foldl commitStep (initHistory initialState)) ∧
    ((docs.foldl commitStep (initHistory initialState)).historyIndex =
        (docs.foldl commitStep (initHistory initialState)).history.length - 1 →
      redo (docs.foldl commitStep (initHistory initialState)) =
        docs.foldl commitStep (initHistory initialState)) := by
  have hg : GoodState (docs.foldl commitStep (initHistory initialState)) :=
    goodState_fold docs (initHistory initialState) goodState_init
  exact ⟨undo_redo_of_good _ hg, undo_at_zero _, redo_at_last _⟩

/-- Witness for C4 at a concrete input: one commit after initialization,
then undo and redo. -/
theorem C4_witness :
    ([(⟨[], 8⟩ : HistoryState)].length + 1 ≤ 20) ∧
    redo (undo ([(⟨[], 8⟩ : HistoryState)].foldl commitStep
        (initHistory initialState))) =
      [(⟨[], 8⟩ : HistoryState)].foldl commitStep (initHistory initialState) :=
  ⟨by decide, (C4_undo_redo_roundtrip [⟨[], 8⟩] (by decide)).1⟩

/-- The starting cell itself is recolored whenever the fill acts. -/
theorem floodFill_root (n : Nat) (g : PixelGrid) (x y : Int) (r : Color)
    (hb : inBounds n x y) (hne : g x y ≠ r) :
    floodFill n g x y (g x y) r x y = r :=
  ff_region_r n (g x y) r (fun hv => hne hv) (n * n + 1) g x y
    (card_lt_fill_fuel n g (g x y)) hb rfl (x, y)
    ⟨hb, rfl, Relation.ReflTransGen.refl⟩

/--
C5: in the bucket branch of `handleDraw`, `floodFill` reads and mutates
the grid object held in the pre-existing `layers` array (not the fresh
row-copy stored in the local `newLayers`), so the snapshot committed by
`addToHistory` right after a fill click records the layers as they were
BEFORE the fill, while the live state carries the filled grid; whenever
the fill changed any cell (target ≠ replacement at an in-bounds click),
the history entry at the new cursor differs from the live document.
-/
theorem C5_bucket_snapshot_stale (st : EditorState) (x y : Int) (i : Nat)
    (l : Layer)
    (htool : st.tool = Tool.bucket)
    (hoob : ¬ outOfRange st.gridSize x y)
    (hfind : st.layers.findIdx? (fun l' => l'.id == st.activeLayerId) = some i)
    (hget : st.layers[i]? = some l)
    (hvis : l.visible = true) :
    (handleDraw st x y true).history[(handleDraw st x y true).historyIndex]? =
      some (⟨st.layers, st.gridSize⟩ : HistoryState) ∧
    (handleDraw st x y true).layers = st.layers.set i
      ({ l with grid :=
          floodFill st.gridSize l.grid x y (l.grid x y) st.selectedColor }) ∧
    (l.grid x y ≠ st.selectedColor →
      ∀ e : HistoryState,
        (handleDraw st x y true).history[(handleDraw st x y true).historyIndex]? =
          some e →
        e.layers ≠ (handleDraw st x y true).layers) := by
  have hb : inBounds st.gridSize x y := by
    unfold outOfRange at hoob
    unfold inBounds
    omega
  set l' : Layer := { l with grid := floodFill st.gridSize l.grid x y (l.grid x y) st.selectedColor } with hl'
  have hstep : handleDraw st x y true =
      { st with
          layers := st.layers.set i l',
          history := (addToHistory st.history st.historyIndex st.layers st.gridSize).1,
          historyIndex :=
            (addToHistory st.history st.historyIndex st.layers st.gridSize).2 } := by
    unfold handleDraw
    rw [if_neg hoob]
    simp only [hfind, hget, htool]
    rw [if_neg (by simp [hvis]), if_pos trivial]
  have hspec := addToHistory_spec st.history st.historyIndex st.layers st.gridSize
  refine ⟨?_, ?_, ?_⟩
  · rw [hstep]
    exact hspec.2.2
  · rw [hstep]
  · intro hne e hgete hlayers
    rw [hstep] at hgete hlayers
    have h2 := hspec.2.2
    rw [show (addToHistory st.history st.historyIndex st.layers st.gridSize).1[
        (addToHistory st.history st.historyIndex st.layers st.gridSize).2]? = some e
      from hgete] at h2
    have he : e = (⟨st.layers, st.gridSize⟩ : HistoryState) := Option.some.inj h2
    rw [he] at hlayers
    have hlt : i < st.layers.length := by
      rw [List.getElem?_eq_some] at hget
      exact hget.1
    have hsame : st.layers[i]? = (st.layers.set i l')[i]? :=
      congrArg (fun L : List Layer => L[i]?) hlayers
    rw [hget, List.getElem?_set_self hlt] at hsame
    have hl2 := Option.some.inj hsame
    have hgr := congrFun (congrFun (congrArg Layer.grid hl2) x) y
    have hroot : floodFill st.gridSize l.grid x y (l.grid x y) st.selectedColor x y
        = st.selectedColor := floodFill_root st.gridSize l.grid x y st.selectedColor hb hne
    have hgr2 : l.grid x y = st.selectedColor := by
      rw [hgr]
      exact hroot
    exact hne hgr2

/-- A concrete layer and state for the bucket-tool witness. -/
def layerB : Layer := ⟨"layer-1", "Layer 1", true, 100, createEmptyGrid 16⟩

/-- A concrete editor state holding one visible empty layer, bucket tool
selected. -/
def stB : EditorState :=
  { gridSize := 16
    layers := [layerB]
    activeLayerId := "layer-1"
    selectedColor := "#123456"
    tool := Tool.bucket
    history := [⟨[layerB], 16⟩]
    historyIndex := 0 }

/-- Witness for C5 at a concrete input: a bucket click on the empty cell
`(0, 0)` commits the pre-fill layers, which differ from the live filled
layers. -/
theorem C5_witness :
    stB.tool = Tool.bucket ∧ ¬ outOfRange stB.gridSize 0 0 ∧
    stB.layers.findIdx? (fun l' => l'.id == stB.activeLayerId) = some 0 ∧
    stB.layers[0]? = some layerB ∧ layerB.visible = true ∧
    layerB.grid 0 0 ≠ stB.selectedColor ∧
    (handleDraw stB 0 0 true).history[(handleDraw stB 0 0 true).historyIndex]? =
      some (⟨stB.layers, stB.gridSize⟩ : HistoryState) ∧
    (⟨stB.layers, stB.gridSize⟩ : HistoryState).layers ≠
      (handleDraw stB 0 0 true).layers := by
  have h := C5_bucket_snapshot_stale stB 0 0 0 layerB rfl (by decide) (by decide)
    rfl rfl
  exact ⟨rfl, by decide, by decide, rfl, rfl, by decide, h.1,
    h.2.2 (by decide) ⟨stB.layers, stB.gridSize⟩ h.1⟩

theorem findIdx?_first_aux {α : Type} (p : α → Bool) :
    ∀ (A : List α) (l : α) (B : List α) (s : Nat),
      (∀ a ∈ A, p a = false) → p l = true →
      List.findIdx? p (A ++ l :: B) s = some (s + A.length) := by
  intro A
  induction A with
  | nil =>
    intro l B s hA hl
    simp [List.findIdx?, hl]
  | cons a A ih =>
    intro l B s hA hl
    have ha : p a = false := hA a (List.mem_cons_self a A)
    simp only [List.cons_append, List.findIdx?, ha, List.append_eq]
    rw [if_neg (by simp [ha])]
    rw [ih l B (s + 1) (fun z hz => hA z (List.mem_cons_of_mem a hz)) hl]
    congr 1
    simp only [List.length_cons]
    omega

/-- `findIdx?` locates the first element satisfying the predicate. -/
theorem findIdx?_first {α : Type} (p : α → Bool) (A : List α) (l : α) (B : List α)
    (hA : ∀ a ∈ A, p a = false) (hl : p l = true) :
    List.findIdx? p (A ++ l :: B) = some A.length := by
  have h := findIdx?_first_aux p A l B 0 hA hl
  rw [h]
  simp

theorem getElem?_append_cons {α : Type} (A : List α) (l : α) (B : List α) :
    (A ++ l :: B)[A.length]? = some l := by
  rw [List.getElem?_append_right (le_refl A.length)]
  simp

theorem set_append_cons {α : Type} :
    ∀ (A : List α) (l w : α) (B : List α),
      (A ++ l :: B).set A.length w = A ++ w :: B := by
  intro A
  induction A with
  | nil => intro l w B; rfl
  | cons a A ih =>
    intro l w B
    simp only [List.cons_append, List.length_cons, List.set, List.append_eq]
    rw [ih]

theorem reverse_append_cons {α : Type} (A : List α) (l : α) (B : List α) :
    (A ++ l :: B).reverse = B.reverse ++ l :: A.reverse := by
  simp [List.reverse_append]

/-- The picker scan returns the first listed layer that is visible with a
non-empty cell, skipping every earlier layer that fails the test. -/
theorem pickScan_skip (A : List Layer) (l : Layer) (B : List Layer) (x y : Int)
    (hA : ∀ a ∈ A, ¬ (a.visible = true ∧ a.grid x y ≠ ""))
    (hvis : l.visible = true) (hne : l.grid x y ≠ "") :
    pickScan (A ++ l :: B) x y = some (l.grid x y) := by
  induction A with
  | nil =>
    show pickScan (l :: B) x y = some (l.grid x y)
    unfold pickScan
    rw [if_pos ⟨hvis, hne⟩]
  | cons a A ih =>
    show pickScan (a :: (A ++ l :: B)) x y = some (l.grid x y)
    unfold pickScan
    rw [if_neg (hA a (List.mem_cons_self a A))]
    exact ih (fun z hz => hA z (List.mem_cons_of_mem a hz))

/-- The picker scan finds nothing when every layer fails the test. -/
theorem pickScan_none (A : List Layer) (x y : Int)
    (hA : ∀ a ∈ A, ¬ (a.visible = true ∧ a.grid x y ≠ "")) :
    pickScan A x y = none := by
  induction A with
  | nil => rfl
  | cons a A ih =>
    unfold pickScan
    rw [if_neg (hA a (List.mem_cons_self a A))]
    exact ih (fun z hz => hA z (List.mem_cons_of_mem a hz))

/--
C6 (amended): `deleteLayer` on a document whose layers list has exactly
one layer is a silent no-op — the guard returns before any mutation or
commit, raising no error — leaving the whole state unchanged; with more
than one layer it removes exactly the layers whose id equals the given
id (one layer, when ids are unique) and keeps the grid size.
-/
theorem C6_deleteLayer_lastLayer (st : EditorState) (id : String) :
    (st.layers.length = 1 → deleteLayer st id = st) ∧
    (1 < st.layers.length →
      (deleteLayer st id).layers = st.layers.filter (fun l => l.id != id) ∧
      (deleteLayer st id).gridSize = st.gridSize ∧
      (∀ l : Layer, l ∈ (deleteLayer st id).layers ↔ l ∈ st.layers ∧ l.id ≠ id)) := by
  constructor
  · intro h1
    unfold deleteLayer
    rw [if_pos (by omega)]
  · intro h2
    have hni : ¬ st.layers.length ≤ 1 := by omega
    refine ⟨?_, ?_, ?_⟩
    · simp only [deleteLayer, if_neg hni]
    · simp only [deleteLayer, if_neg hni]
    · intro l
      simp only [deleteLayer, if_neg hni]
      rw [List.mem_filter]
      simp [bne_iff_ne]

/-- A concrete single-layer state for the C6 counterexample. -/
def stS : EditorState :=
  { gridSize := 16
    layers := [layerB]
    activeLayerId := "layer-1"
    selectedColor := "#ff6b00"
    tool := Tool.pencil
    history := [⟨[layerB], 16⟩]
    historyIndex := 0 }

/--
C6 counterexample: on a document with exactly one layer, the source's
`deleteLayer` does not fail with `LastLayerError` — it returns the state
unchanged with no error signal of any kind (its early `return` produces
no exception), whereas the spec-modelled operation yields
`Except.error lastLayerError`; so the claim's "fails with
LastLayerError" is false of the code.
-/
theorem C6_counterexample :
    stS.layers.length = 1 ∧
    deleteLayer stS "layer-1" = stS ∧
    deleteLayerSpec stS.layers "layer-1" =
      Except.error EditError.lastLayerError := by
  refine ⟨rfl, ?_, ?_⟩
  · unfold deleteLayer
    rw [if_pos (by decide)]
  · unfold deleteLayerSpec
    rw [if_pos (show stS.layers.length = 1 from rfl)]

/-- A second concrete layer and a two-layer state for the C6 witness. -/
def layerB2 : Layer := ⟨"layer-2", "Layer 2", true, 100, createEmptyGrid 16⟩

/-- A concrete two-layer state. -/
def stD : EditorState :=
  { gridSize := 16
    layers := [layerB, layerB2]
    activeLayerId := "layer-2"
    selectedColor := "#ff6b00"
    tool := Tool.pencil
    history := [⟨[layerB, layerB2], 16⟩]
    historyIndex := 0 }

/-- Witness for C6 at a concrete input: deleting one of two layers
removes exactly that layer and keeps the grid size. -/
theorem C6_witness :
    1 < stD.layers.length ∧
    (deleteLayer stD "layer-2").layers = [layerB] ∧
    (deleteLayer stD "layer-2").gridSize = 16 := by
  have h := (C6_deleteLayer_lastLayer stD "layer-2").2 (by decide)
  refine ⟨by decide, ?_, h.2.1⟩
  rw [h.1]
  rfl

/-- When the active target layer exists and is visible and the scan finds
a color, the picker stores it and switches to the pencil. -/
theorem handleDraw_picker_finds (st : EditorState) (x y : Int) (i : Nat)
    (l : Layer) (c : Color)
    (htool : st.tool = Tool.picker) (hoob : ¬ outOfRange st.gridSize x y)
    (hfind : st.layers.findIdx? (fun l' => l'.id == st.activeLayerId) = some i)
    (hget : st.layers[i]? = some l) (hvis : l.visible = true)
    (hscan : pickScan st.layers.reverse x y = some c) :
    handleDraw st x y true = { st with selectedColor := c, tool := Tool.pencil } := by
  unfold handleDraw
  rw [if_neg hoob]
  simp only [hfind, hget, htool, hscan]
  rw [if_neg (by simp [hvis])]

/-- When the scan finds nothing, the picker is a complete no-op. -/
theorem handleDraw_picker_none (st : EditorState) (x y : Int) (i : Nat)
    (l : Layer)
    (htool : st.tool = Tool.picker) (hoob : ¬ outOfRange st.gridSize x y)
    (hfind : st.layers.findIdx? (fun l' => l'.id == st.activeLayerId) = some i)
    (hget : st.layers[i]? = some l) (hvis : l.visible = true)
    (hscan : pickScan st.layers.reverse x y = none) :
    handleDraw st x y true = st := by
  unfold handleDraw
  rw [if_neg hoob]
  simp only [hfind, hget, htool, hscan]
  rw [if_neg (by simp [hvis])]

/-- A visible bottom layer with red at `(0, 0)`. -/
def layerBot : Layer :=
  ⟨"bot", "Layer 1", true, 100, setCell (createEmptyGrid 4) 0 0 "#b13e53"⟩

/-- A hidden top layer. -/
def layerTop : Layer := ⟨"top", "Layer 2", false, 100, createEmptyGrid 4⟩

/-- A state whose ACTIVE layer is the hidden top layer, picker selected. -/
def stP : EditorState :=
  { gridSize := 4
    layers := [layerBot, layerTop]
    activeLayerId := "top"
    selectedColor := "#ffffff"
    tool := Tool.picker
    history := []
    historyIndex := 0 }

/--
C7 counterexample: with the picker tool, a visible layer (`layerBot`)
holds a non-empty color at `(0, 0)` and the scan would find it, but
because the ACTIVE target layer is hidden, `handleDraw` returns early
and the selection stays unchanged — the pick is NOT independent of which
layer is the active target, refuting the claim as stated.
-/
theorem C7_counterexample :
    stP.tool = Tool.picker ∧ ¬ outOfRange stP.gridSize 0 0 ∧
    layerBot ∈ stP.layers ∧ layerBot.visible = true ∧
    layerBot.grid 0 0 = "#b13e53" ∧
    pickScan stP.layers.reverse 0 0 = some "#b13e53" ∧
    (handleDraw stP 0 0 true).selectedColor = "#ffffff" ∧
    "#ffffff" ≠ "#b13e53" := by
  refine ⟨rfl, by decide, List.mem_cons_self _ _, rfl, by decide, by decide,
    by decide, by decide⟩

/--
C7 (amended): provided the active target layer exists and is visible,
the picker scans the layers in reverse z-order (top to bottom) and sets
the selection to the color of the first visible layer whose cell at
`(x, y)` is non-empty (also switching to the pencil tool); if no visible
layer has a color there, the whole state is unchanged — the selection is
untouched and no error is raised.  If the active layer is hidden or
missing, the whole operation is a no-op (see `C7_counterexample`).
-/
theorem C7_picker_scan (st : EditorState) (x y : Int) (i : Nat) (l : Layer)
    (htool : st.tool = Tool.picker) (hoob : ¬ outOfRange st.gridSize x y)
    (hfind : st.layers.findIdx? (fun l' => l'.id == st.activeLayerId) = some i)
    (hget : st.layers[i]? = some l) (hvis : l.visible = true) :
    (∀ c : Color, pickScan st.layers.reverse x y = some c →
      handleDraw st x y true = { st with selectedColor := c, tool := Tool.pencil }) ∧
    (∀ A : List Layer, ∀ top : Layer, ∀ B : List Layer,
      st.layers.reverse = A ++ top :: B →
      (∀ a ∈ A, ¬ (a.visible = true ∧ a.grid x y ≠ "")) →
      top.visible = true → top.grid x y ≠ "" →
      handleDraw st x y true =
        { st with selectedColor := top.grid x y, tool := Tool.pencil }) ∧
    (pickScan st.layers.reverse x y = none → handleDraw st x y true = st) := by
  refine ⟨?_, ?_, ?_⟩
  · intro c hscan
    exact handleDraw_picker_finds st x y i l c htool hoob hfind hget hvis hscan
  · intro A top B hsplit hA htopv htopne
    have hscan : pickScan st.layers.reverse x y = some (top.grid x y) := by
      rw [hsplit]
      exact pickScan_skip A top B x y hA htopv htopne
    exact handleDraw_picker_finds st x y i l (top.grid x y) htool hoob hfind hget
      hvis hscan
  · intro hscan
    exact handleDraw_picker_none st x y i l htool hoob hfind hget hvis hscan

/-- A single visible layer with a color at `(0, 0)`, picker selected. -/
def layerV : Layer :=
  ⟨"v", "Layer 1", true, 100, setCell (createEmptyGrid 4) 0 0 "#ff0044"⟩

/-- A concrete picker state with the visible layer active. -/
def stP2 : EditorState :=
  { gridSize := 4
    layers := [layerV]
    activeLayerId := "v"
    selectedColor := "#000000"
    tool := Tool.picker
    history := []
    historyIndex := 0 }

/-- Witness for C7 at a concrete input: picking on a visible active layer
adopts its color and switches to the pencil. -/
theorem C7_witness :
    stP2.tool = Tool.picker ∧ ¬ outOfRange stP2.gridSize 0 0 ∧
    pickScan stP2.layers.reverse 0 0 = some "#ff0044" ∧
    handleDraw stP2 0 0 true =
      { stP2 with selectedColor := "#ff0044", tool := Tool.pencil } := by
  have h := (C7_picker_scan stP2 0 0 0 layerV rfl (by decide) (by decide) rfl
    rfl).1 "#ff0044" (by decide)
  exact ⟨rfl, by decide, by decide, h⟩

/--
C8: `changeGridSize` with the current size is a no-op on the whole state;
with a different size it sets the document size to `newSize` and gives
every layer a grid that keeps cell `(x, y)` from the source exactly when
both coordinates are below `min newSize size` (top-left alignment) and
is empty everywhere else (in particular on all cells of the new
dimension outside the overlap), while preserving every other layer
field.
-/
theorem C8_changeGridSize (st : EditorState) (size : Nat) :
    (size = st.gridSize → changeGridSize st size = st) ∧
    (size ≠ st.gridSize →
      (changeGridSize st size).gridSize = size ∧
      (changeGridSize st size).layers.length = st.layers.length ∧
      ∀ (i : Nat) (l : Layer), st.layers[i]? = some l →
        ∃ l' : Layer, (changeGridSize st size).layers[i]? = some l' ∧
          l'.id = l.id ∧ l'.name = l.name ∧ l'.visible = l.visible ∧
          l'.opacity = l.opacity ∧
          ∀ a b : Int, l'.grid a b = (if (0 ≤ a ∧ a < ((min size st.gridSize : Nat) : Int) ∧ 0 ≤ b ∧ b < ((min size st.gridSize : Nat) : Int)) then l.grid a b else "")) := by
  constructor
  · intro h1
    unfold changeGridSize
    rw [if_pos h1]
  · intro h2
    refine ⟨?_, ?_, ?_⟩
    · simp only [changeGridSize, if_neg h2]
    · simp only [changeGridSize, if_neg h2]
      rw [List.length_map]
    · intro i l hget
      simp only [changeGridSize, if_neg h2]
      rw [List.getElem?_map, hget]
      refine ⟨_, rfl, rfl, rfl, rfl, rfl, ?_⟩
      intro a b
      rfl

/-- A concrete state for the C8 witness. -/
def stR : EditorState :=
  { gridSize := 16
    layers := [layerB]
    activeLayerId := "layer-1"
    selectedColor := "#ff6b00"
    tool := Tool.pencil
    history := [⟨[layerB], 16⟩]
    historyIndex := 0 }

/-- Witness for C8 at a concrete input: shrinking 16 → 8 keeps the layer
count and sets the new size. -/
theorem C8_witness :
    (8 : Nat) ≠ stR.gridSize ∧
    (changeGridSize stR 8).gridSize = 8 ∧
    (changeGridSize stR 8).layers.length = stR.layers.length := by
  have h := (C8_changeGridSize stR 8).2 (by decide)
  exact ⟨by decide, h.1, h.2.1⟩

/-- The pencil branch of `handleDraw`: writes the selected color at the
cell of the visible active layer unless it is already there. -/
theorem handleDraw_pencil (st : EditorState) (x y : Int) (i : Nat) (l : Layer)
    (ic : Bool)
    (htool : st.tool = Tool.pencil) (hoob : ¬ outOfRange st.gridSize x y)
    (hfind : st.layers.findIdx? (fun l' => l'.id == st.activeLayerId) = some i)
    (hget : st.layers[i]? = some l) (hvis : l.visible = true) :
    handleDraw st x y ic =
      (if l.grid x y ≠ st.selectedColor
       then { st with layers := st.layers.set i ({ l with grid := setCell l.grid x y st.selectedColor }) }
       else st) := by
  unfold handleDraw
  rw [if_neg hoob]
  simp only [hfind, hget, htool]
  rw [if_neg (by simp [hvis]),
    if_neg (show ¬ (Tool.pencil = Tool.eraser) by decide)]

/--
C9: on a visible active layer and a valid in-bounds cell, painting a
non-empty color `c` (pencil with `c` selected) and then using the picker
at the same cell selects exactly `c`, provided no visible layer above
the target has a non-empty cell there (`B` is the list of layers above
the target in z-order).
-/
theorem C9_paint_then_pick (st : EditorState) (x y : Int) (A : List Layer)
    (l : Layer) (B : List Layer)
    (hsplit : st.layers = A ++ l :: B)
    (hfirst : ∀ a ∈ A, (a.id == st.activeLayerId) = false)
    (hid : (l.id == st.activeLayerId) = true)
    (hvis : l.visible = true)
    (htool : st.tool = Tool.pencil)
    (hoob : ¬ outOfRange st.gridSize x y)
    (hc : st.selectedColor ≠ "")
    (hB : ∀ b' ∈ B, b'.visible = true → b'.grid x y = "") :
    (handleDraw { handleDraw st x y false with tool := Tool.picker } x y
      true).selectedColor = st.selectedColor := by
  have hfind1 : st.layers.findIdx? (fun l' => l'.id == st.activeLayerId)
      = some A.length := by
    rw [hsplit]
    exact findIdx?_first _ A l B hfirst hid
  have hget1 : st.layers[A.length]? = some l := by
    rw [hsplit]
    exact getElem?_append_cons A l B
  have hp := handleDraw_pencil st x y A.length l false htool hoob hfind1 hget1 hvis
  by_cases heq : l.grid x y = st.selectedColor
  · have hst1 : handleDraw st x y false = st := by
      rw [hp, if_neg (by simp [heq])]
    rw [hst1]
    have hscan : pickScan
        ({ st with tool := Tool.picker } : EditorState).layers.reverse x y
        = some (l.grid x y) := by
      show pickScan st.layers.reverse x y = some (l.grid x y)
      rw [hsplit, reverse_append_cons]
      refine pickScan_skip B.reverse l A.reverse x y ?_ hvis ?_
      · intro a ha hcond
        exact hcond.2 (hB a (List.mem_reverse.mp ha) hcond.1)
      · rw [heq]
        exact hc
    have hpick := handleDraw_picker_finds { st with tool := Tool.picker } x y
      A.length l (l.grid x y) rfl hoob hfind1 hget1 hvis hscan
    rw [hpick]
    exact heq
  · have hst1 : handleDraw st x y false = { st with layers := st.layers.set A.length ({ l with grid := setCell l.grid x y st.selectedColor }) } := by
      rw [hp, if_pos heq]
    set l2 : Layer := { l with grid := setCell l.grid x y st.selectedColor } with hl2
    have hfind2 : (st.layers.set A.length l2).findIdx?
        (fun l' => l'.id == st.activeLayerId) = some A.length := by
      rw [hsplit, set_append_cons]
      exact findIdx?_first _ A l2 B hfirst hid
    have hget2 : (st.layers.set A.length l2)[A.length]? = some l2 := by
      rw [hsplit, set_append_cons]
      exact getElem?_append_cons A l2 B
    have hscan2 : pickScan (st.layers.set A.length l2).reverse x y
        = some (l2.grid x y) := by
      rw [hsplit, set_append_cons, reverse_append_cons]
      refine pickScan_skip B.reverse l2 A.reverse x y ?_ hvis ?_
      · intro a ha hcond
        exact hcond.2 (hB a (List.mem_reverse.mp ha) hcond.1)
      · show setCell l.grid x y st.selectedColor x y ≠ ""
        rw [show setCell l.grid x y st.selectedColor x y = st.selectedColor by
          simp [setCell]]
        exact hc
    have hpick := handleDraw_picker_finds
      { st with layers := st.layers.set A.length l2, tool := Tool.picker } x y
      A.length l2 (l2.grid x y) rfl hoob hfind2 hget2 hvis hscan2
    rw [hst1]
    rw [hpick]
    show setCell l.grid x y st.selectedColor x y = st.selectedColor
    simp [setCell]

/-- A concrete single-layer pencil state for the C9 witness. -/
def layerW9 : Layer := ⟨"w", "Layer 1", true, 100, createEmptyGrid 8⟩

/-- A concrete editor state for the C9 witness. -/
def stW9 : EditorState :=
  { gridSize := 8
    layers := [layerW9]
    activeLayerId := "w"
    selectedColor := "#a7f070"
    tool := Tool.pencil
    history := []
    historyIndex := 0 }

/-- Witness for C9 at a concrete input: painting `(0, 0)` green and
picking there returns the green. -/
theorem C9_witness :
    stW9.layers = [] ++ layerW9 :: [] ∧ stW9.tool = Tool.pencil ∧
    stW9.selectedColor ≠ "" ∧
    (handleDraw { handleDraw stW9 0 0 false with tool := Tool.picker } 0 0
      true).selectedColor = stW9.selectedColor := by
  have h := C9_paint_then_pick stW9 0 0 [] layerW9 [] rfl (by simp) (by decide)
    rfl rfl (by decide) (by decide) (by simp)
  exact ⟨rfl, rfl, by decide, h⟩

/--
C10 (amended): `updateLayerOpacity` stores the given value verbatim in
the layer with the matching id — it neither clamps nor fails with
`InvalidArgument` — so the stored opacity lies in `[0, 100]` exactly
when the argument does; every other field of that layer, and every
other layer, is unchanged.
-/
theorem C10_updateLayerOpacity_stores (layers : List Layer) (id : String)
    (v : Int) (i : Nat) (l : Layer) (hget : layers[i]? = some l) :
    (l.id = id →
      ∃ l' : Layer, (updateLayerOpacity layers id v)[i]? = some l' ∧
        l'.opacity = v ∧ l'.id = l.id ∧ l'.name = l.name ∧
        l'.visible = l.visible ∧ l'.grid = l.grid ∧
        ((0 ≤ l'.opacity ∧ l'.opacity ≤ 100) ↔ (0 ≤ v ∧ v ≤ 100))) ∧
    (l.id ≠ id → (updateLayerOpacity layers id v)[i]? = some l) := by
  constructor
  · intro hid
    refine ⟨{ l with opacity := v }, ?_, rfl, rfl, rfl, rfl, rfl, Iff.rfl⟩
    unfold updateLayerOpacity
    rw [List.getElem?_map, hget]
    show some (if l.id = id then { l with opacity := v } else l) = _
    rw [if_pos hid]
  · intro hid
    unfold updateLayerOpacity
    rw [List.getElem?_map, hget]
    show some (if l.id = id then { l with opacity := v } else l) = _
    rw [if_neg hid]

/--
C10 counterexample: the source stores an out-of-range opacity verbatim —
`updateLayerOpacity` with `v = 150` leaves the layer with opacity `150`,
outside `[0, 100]`, so the claim that the stored opacity always ends in
`[0, 100]` (by clamping or by failing with `InvalidArgument`) is false.
-/
theorem C10_counterexample :
    updateLayerOpacity [layerB] "layer-1" 150 = [{ layerB with opacity := 150 }] ∧
    ({ layerB with opacity := 150 } : Layer).opacity = 150 ∧
    ¬ ((0 : Int) ≤ 150 ∧ (150 : Int) ≤ 100) := by
  refine ⟨?_, rfl, by decide⟩
  show [if layerB.id = "layer-1" then { layerB with opacity := 150 } else layerB]
    = [{ layerB with opacity := 150 }]
  rw [if_pos (show layerB.id = "layer-1" from rfl)]

/-- Witness for C10 at a concrete input: an in-range value is stored
verbatim and stays in range. -/
theorem C10_witness :
    ([layerB] : List Layer)[0]? = some layerB ∧ layerB.id = "layer-1" ∧
    ∃ l' : Layer, (updateLayerOpacity [layerB] "layer-1" 50)[0]? = some l' ∧
      l'.opacity = 50 ∧ ((0 ≤ l'.opacity ∧ l'.opacity ≤ 100) ↔
        ((0 : Int) ≤ 50 ∧ (50 : Int) ≤ 100)) := by
  have h := (C10_updateLayerOpacity_stores [layerB] "layer-1" 50 0 layerB rfl).1 rfl
  obtain ⟨l', h1, h2, _, _, _, _, h3⟩ := h
  exact ⟨rfl, rfl, l', h1, h2, h3⟩
